import Mathlib

/-!
# Verification of the LLM streaming chat client (less_03)

A shallow embedding of the streaming-protocol client
(`less_03/internal/client/client.go`), the conversation-history model
(`less_03/internal/chat/chat.go`) and the stream-to-display bridge
(the `ui` package's `startStreaming` forwarding goroutine and
`handleStreamMsg`), together with proofs of the specification's claims
about them.

Modelling conventions:
* Go byte slices are modelled as `List Char` (one `Char` per byte; all
  inputs of interest are ASCII).
* `json.Unmarshal` into `ChatResponse` is external library code, so it is
  modelled as an uninterpreted decode function
  `decode : List Char → Option ChatResponse` that every theorem
  quantifies over; `none` models a parse error.
* Channels are modelled by the ordered list of values sent on them; the
  number of `close` calls on a path is recorded explicitly.
* Mutex acquisition/release and logging calls have no observable effect
  in a single-threaded model and are elided.
-/

namespace LlmClient

/-- `chat.Role` is a Go string type; the three valid role constants. -/
def roleSystem : String := "system"

def roleUser : String := "user"

def roleAssistant : String := "assistant"

/-- `chat.Message`: one message of the dialogue (role + content). -/
structure Message where
  role : String
  content : String
deriving DecidableEq, Repr

/-- `chat.NewChatHistory`: fresh history, seeded with a system message
when the system prompt is non-empty.  The history is modelled by its
`messages` slice. -/
def NewChatHistory (systemPrompt : String) : List Message :=
  if systemPrompt ≠ "" then [⟨roleSystem, systemPrompt⟩] else []

/-- `ChatHistory.AddUser`: append a user message. -/
def AddUser (msgs : List Message) (content : String) : List Message :=
  msgs ++ [⟨roleUser, content⟩]

/-- `ChatHistory.AddAssistant`: append an assistant message. -/
def AddAssistant (msgs : List Message) (content : String) : List Message :=
  msgs ++ [⟨roleAssistant, content⟩]

/-- `ChatHistory.UpdateLastAssistant`: if the last message exists and its
role is assistant, overwrite its content and report `true`; otherwise
leave the history unchanged and report `false`. -/
def UpdateLastAssistant (msgs : List Message) (content : String) :
    List Message × Bool :=
  match msgs.getLast? with
  | some m =>
    if m.role = roleAssistant then
      (msgs.dropLast ++ [{ m with content := content }], true)
    else (msgs, false)
  | none => (msgs, false)

/-- `ChatHistory.RemoveLast`: drop the last message unless the history
has at most one message (the guard `len(h.messages) <= 1` in the source);
reports whether a removal happened. -/
def RemoveLast (msgs : List Message) : List Message × Bool :=
  if msgs.length ≤ 1 then (msgs, false)
  else (msgs.dropLast, true)

/-! ## The errors package (`internal/errors`) -/

/-- A context value stored in `AppError.Context` (`map[string]any`);
only integers and strings are ever stored by the client. -/
inductive CtxVal where
  | natVal (n : Nat)
  | strVal (s : List Char)
deriving DecidableEq, Repr

/-- `errors.AppError` (fields used by the client; the wrapped original
`Err` is an opaque external error value and is elided). The `Context`
map is modelled as an association list: every key written by the client
is written at most once. -/
structure AppError where
  kind : String
  code : String
  message : String
  context : List (String × CtxVal)
deriving DecidableEq, Repr

/-- `errors.NewInternalError`. -/
def NewInternalError (code message : String) : AppError :=
  ⟨"internal", code, message, []⟩

/-- `errors.NewNetworkError`. -/
def NewNetworkError (code message : String) : AppError :=
  ⟨"network", code, message, []⟩

/-- `errors.NewStreamError`. -/
def NewStreamError (code message : String) : AppError :=
  ⟨"stream", code, message, []⟩

/-- `errors.NewAPIError`: seeds the context with the HTTP status code. -/
def NewAPIError (code message : String) (statusCode : Nat) : AppError :=
  ⟨"api", code, message, [("status_code", CtxVal.natVal statusCode)]⟩

/-- `AppError.WithContext`: record one more key/value pair. -/
def AppError.withContext (e : AppError) (key : String) (v : CtxVal) :
    AppError :=
  { e with context := e.context ++ [(key, v)] }

/-! ## The client package: wire-format types -/

/-- One choice of `client.ChatResponse` (`Index`, `Delta`, `Message`,
`FinishReason`). -/
structure Choice where
  index : Nat
  delta : Message
  message : Message
  finishReason : String
deriving DecidableEq, Repr

/-- `client.ChatResponse` (the JSON envelope of one stream line). -/
structure ChatResponse where
  id : String
  object : String
  created : Int
  model : String
  choices : List Choice
deriving DecidableEq, Repr

/-- `client.StreamChunk`: one chunk sent on the stream channel. -/
structure StreamChunk where
  content : String
  done : Bool
  error : Option AppError
deriving DecidableEq, Repr

/-- The `StreamChunk{Done: true}` value. -/
def doneChunk : StreamChunk := ⟨"", true, none⟩

/-- A `StreamChunk{Error: e}` value. -/
def errorChunk (e : AppError) : StreamChunk := ⟨"", false, some e⟩

/-- A `StreamChunk{Content: s}` value. -/
def contentChunk (s : String) : StreamChunk := ⟨s, false, none⟩

/-! ## The frame parser (`Client.parseStreamData`) -/

/-- The ASCII bytes trimmed by `bytes.TrimSpace` (the claims' inputs are
ASCII, where Go's `unicode.IsSpace` accepts exactly these six bytes). -/
def isSpaceByte (c : Char) : Bool :=
  c = ' ' || c = '\t' || c = '\n' || c = '\x0b' || c = '\x0c' || c = '\r'

/-- `bytes.TrimSpace` on ASCII input: strip space bytes at both ends. -/
def trimSpaceBytes (l : List Char) : List Char :=
  ((l.dropWhile isSpaceByte).reverse.dropWhile isSpaceByte).reverse

/-- `bytes.Split(data, []byte("\n"))`: split into newline-separated
fragments; always returns at least one (possibly empty) fragment. -/
def splitOnNl : List Char → List (List Char)
  | [] => [[]]
  | c :: rest =>
    if c = '\n' then [] :: splitOnNl rest
    else
      match splitOnNl rest with
      | [] => [[c]]
      | l :: ls => (c :: l) :: ls

/-- The chunks one decoded envelope contributes (the
`if len(resp.Choices) > 0` block of `parseStreamData`): with no choice,
nothing; otherwise the content of the first choice — the delta content,
falling back to the full message content when the delta is empty — as a
content chunk when non-empty, followed by a done chunk when
`FinishReason` is neither empty nor the literal string `"null"`. -/
def envelopeChunks (resp : ChatResponse) : List StreamChunk :=
  match resp.choices with
  | [] => []
  | c0 :: _ =>
    let content :=
      if c0.delta.content = "" then c0.message.content else c0.delta.content
    (if content ≠ "" then [contentChunk content] else []) ++
      (if c0.finishReason ≠ "" ∧ c0.finishReason ≠ "null" then [doneChunk]
        else [])

/-- The body of `parseStreamData`'s loop over the split lines.  Mirrors
the source line by line: trim; skip empty lines, comment lines and lines
without the `data: ` marker; on the `[DONE]` sentinel emit a done chunk
and return at once (the Go `return chunks`); otherwise decode the JSON
payload, silently dropping the line on a decode error, and append the
decoded envelope's chunks before continuing with the remaining lines. -/
def parseLines (decode : List Char → Option ChatResponse) :
    List (List Char) → List StreamChunk
  | [] => []
  | rawLine :: rest =>
    let line := trimSpaceBytes rawLine
    if line.length = 0 then parseLines decode rest
    else if (":".toList).isPrefixOf line then parseLines decode rest
    else if ¬ (("data: ".toList).isPrefixOf line) then parseLines decode rest
    else
      let jsonData := line.drop ("data: ".toList).length
      if jsonData = "[DONE]".toList then [doneChunk]
      else
        match decode jsonData with
        | none => parseLines decode rest
        | some resp => envelopeChunks resp ++ parseLines decode rest

/-- `Client.parseStreamData`: split the raw buffer on newlines and run
the per-line loop.  Each call starts from scratch: the function keeps no
state between calls and no carry-over buffer for a trailing partial
line. -/
def parseStreamData (decode : List Char → Option ChatResponse)
    (data : List Char) : List StreamChunk :=
  parseLines decode (splitOnNl data)

/-- Concatenation of the content fields of a chunk list, in order. -/
def concatContent (cs : List StreamChunk) : String :=
  cs.foldl (fun acc c => acc ++ c.content) ""

/-! ## The read loop (`Client.readStream`) -/

/-- The outcome of one `reader.Read(buf)` call: possibly zero bytes of
data, possibly an error (`io.EOF` for a clean end of stream, or any
other read error). -/
inductive ReadErr where
  | eof
  | other (msg : String)
deriving DecidableEq, Repr

/-- One read result `(buf[:n], err)`; `data = []` models `n = 0`. -/
structure ReadRes where
  data : List Char
  err : Option ReadErr
deriving DecidableEq, Repr

/-- The inner `for _, chunk := range chunks` loop of `readStream`:
forward each chunk to the channel, stopping (Go `return`) right after a
`Done` or `Error` chunk; chunks with empty content and no flag are
skipped.  Returns the chunks actually sent and whether the loop
returned early on a terminal chunk. -/
def forwardChunks : List StreamChunk → List StreamChunk × Bool
  | [] => ([], false)
  | c :: cs =>
    if c.done then ([c], true)
    else if c.error.isSome then ([c], true)
    else if c.content ≠ "" then
      let r := forwardChunks cs
      (c :: r.1, r.2)
    else forwardChunks cs

/-- Whether `ctx.Done()` is already closed at loop iteration `i`, for a
context that becomes cancelled before iteration `cancelAfter` (and
`none` for a context that is never cancelled).  Cancellation is
monotone. -/
def ctxDoneAt (cancelAfter : Option Nat) (i : Nat) : Bool :=
  match cancelAfter with
  | none => false
  | some k => k ≤ i

/-- The `readStream` loop, driven by the (finite) list of results the
successive `reader.Read` calls produce.  Per iteration: first poll the
context (on cancellation send `StreamChunk{Done: true}` and return);
then, when the read returned data, parse it and forward the resulting
chunks, returning if a terminal chunk was forwarded; finally inspect the
read error: a non-EOF error sends one `READ_ERROR` stream-error chunk
and returns, `io.EOF` returns silently, no error continues the loop.
An exhausted result list models a stream on which no further read has
completed (the emissions so far). -/
def readStreamAux (decode : List Char → Option ChatResponse)
    (cancelAfter : Option Nat) : Nat → List ReadRes → List StreamChunk
  | _, [] => []
  | i, r :: rs =>
    if ctxDoneAt cancelAfter i then [doneChunk]
    else
      let p :=
        if r.data ≠ [] then forwardChunks (parseStreamData decode r.data)
        else ([], false)
      if p.2 then p.1
      else
        match r.err with
        | none => p.1 ++ readStreamAux decode cancelAfter (i + 1) rs
        | some ReadErr.eof => p.1
        | some (ReadErr.other _) =>
          p.1 ++ [errorChunk (NewStreamError "READ_ERROR" "read error")]

/-- `Client.readStream`: the loop started at iteration 0. -/
def readStream (decode : List Char → Option ChatResponse)
    (cancelAfter : Option Nat) (reads : List ReadRes) : List StreamChunk :=
  readStreamAux decode cancelAfter 0 reads

/-! ## The request path (`Client.ChatStream`) -/

/-- `Client.handleErrorResponse`: build the API error for a non-success
response, recording the status and attaching the raw body as context. -/
def handleErrorResponse (statusCode : Nat) (body : List Char) : AppError :=
  (NewAPIError "API_ERROR"
      ("API error (status " ++ toString statusCode ++ ")")
      statusCode).withContext "body" (CtxVal.strVal body)

/-- How far a `ChatStream` call gets before/while talking to the
network: marshalling the request may fail, building the HTTP request
may fail, the transport may fail before any response, or a response
arrives with a status code, a body (read only on the non-success path)
and, on the success path, a stream of reads and a cancellation point. -/
inductive StreamOutcome where
  | marshalFail
  | requestFail
  | transportFail
  | response (status : Nat) (body : List Char) (reads : List ReadRes)
      (cancelAfter : Option Nat)

/-- `Client.ChatStream`: the list of chunks sent on the returned channel
and the number of times the channel is closed on that path.  Each early
failure path sends one error chunk and closes the channel explicitly;
the reader goroutine closes it once by `defer` — after one error chunk
on a non-success status, or after the `readStream` emissions. -/
def ChatStream (decode : List Char → Option ChatResponse) :
    StreamOutcome → List StreamChunk × Nat
  | StreamOutcome.marshalFail =>
    ([errorChunk (NewInternalError "MARSHAL_ERROR" "failed to marshal request")], 1)
  | StreamOutcome.requestFail =>
    ([errorChunk (NewInternalError "REQUEST_ERROR" "failed to create request")], 1)
  | StreamOutcome.transportFail =>
    ([errorChunk (NewNetworkError "REQUEST_FAILED" "request failed")], 1)
  | StreamOutcome.response status body reads cancelAfter =>
    if status ≠ 200 then ([errorChunk (handleErrorResponse status body)], 1)
    else (readStream decode cancelAfter reads, 1)

/-! ## The stream-to-display bridge (`ui` package) -/

/-- `ui.StreamMsg`: the message forwarded to the display loop. -/
structure StreamMsg where
  content : String
  done : Bool
  err : Option AppError
deriving DecidableEq, Repr

/-- The forwarding goroutine of `Model.startStreaming`: for each chunk
received from the client channel, forward `{Done: true}` and close the
UI channel on a done chunk, forward `{Err: e}` and close on an error
chunk, forward `{Content: s}` for non-empty content; when the client
channel is closed without a terminal chunk the `for range` loop simply
ends — nothing further is forwarded and the UI channel is NOT closed.
Returns the forwarded messages and whether the UI channel was closed. -/
def forwardToUI : List StreamChunk → List StreamMsg × Bool
  | [] => ([], false)
  | c :: cs =>
    if c.done then ([⟨"", true, none⟩], true)
    else
      match c.error with
      | some e => ([⟨"", false, some e⟩], true)
      | none =>
        if c.content ≠ "" then
          let r := forwardToUI cs
          (⟨c.content, false, none⟩ :: r.1, r.2)
        else forwardToUI cs

/-- The display-model state touched by `Model.handleStreamMsg` (the
viewport and logger are elided). -/
structure UIState where
  history : List Message
  streamingBuf : String
  statusError : Bool
deriving DecidableEq, Repr

/-- `Model.handleStreamMsg`: an error message flips the status to error
and leaves the history alone; a done message commits the accumulated
buffer as a new assistant message; a content message extends the buffer
and updates the last assistant message in the history. -/
def handleStreamMsg (st : UIState) (msg : StreamMsg) : UIState :=
  if msg.err.isSome then { st with statusError := true }
  else if msg.done then
    { st with history := AddAssistant st.history st.streamingBuf,
              streamingBuf := "" }
  else
    let b := st.streamingBuf ++ msg.content
    { st with streamingBuf := b,
              history := (UpdateLastAssistant st.history b).1 }

/-- Process a whole sequence of bridge messages. -/
def handleStreamMsgs (st : UIState) (msgs : List StreamMsg) : UIState :=
  msgs.foldl handleStreamMsg st

/-! ## Generic chunk predicates -/

/-- A chunk is terminal when it signals completion or carries an error. -/
def isTerminal (c : StreamChunk) : Bool := c.done || c.error.isSome

/-- Every chunk before the last one is non-terminal. -/
def terminalOnlyLast : List StreamChunk → Bool
  | [] => true
  | c :: cs => if cs = [] then true else !isTerminal c && terminalOnlyLast cs

/-- Number of terminal chunks in a list. -/
def countTerminals (cs : List StreamChunk) : Nat :=
  (cs.filter isTerminal).length

/-! ## Concrete fixtures for counterexamples and witnesses

`json.Unmarshal` is modelled by an uninterpreted decode function, so
concrete scenarios supply a small table-driven decoder mapping the
payloads used in the scenario to the envelopes the real decoder would
produce for them. -/

/-- The envelope `{"choices":[{"delta":{"content":"hi"}}]}` decodes to. -/
def respHi : ChatResponse :=
  ⟨"", "", 0, "", [⟨0, ⟨"", "hi"⟩, ⟨"", ""⟩, ""⟩]⟩

/-- The payload text `{"choices":[{"delta":{"content":"hi"}}]}`. -/
def payloadHi : List Char :=
  "\x7b\"choices\":[\x7b\"delta\":\x7b\"content\":\"hi\"\x7d\x7d]\x7d".toList

/-- Table decoder recognising exactly `payloadHi`. -/
def decodeHi : List Char → Option ChatResponse := fun s =>
  if s = payloadHi then some respHi else none

/-- The full wire line `data: {"choices":[{"delta":{"content":"hi"}}]}\n`. -/
def fullHi : List Char := "data: ".toList ++ payloadHi ++ ['\n']

/-- An envelope with delta content `"hi"` and finish reason `"stop"`. -/
def respFin : ChatResponse :=
  ⟨"", "", 0, "", [⟨0, ⟨"", "hi"⟩, ⟨"", ""⟩, "stop"⟩]⟩

/-- An envelope with delta content `"hi"` and the literal finish reason
string `"null"`. -/
def respNull : ChatResponse :=
  ⟨"", "", 0, "", [⟨0, ⟨"", "hi"⟩, ⟨"", ""⟩, "null"⟩]⟩

/-- Table decoder: payload `P1` is well-formed with finish reason
`stop`, `P2` is well-formed with finish reason `null`, everything else
(e.g. `BAD`) is malformed and fails to decode. -/
def decodeT : List Char → Option ChatResponse := fun s =>
  if s = "P1".toList then some respFin
  else if s = "P2".toList then some respNull
  else none

/-! # Theorems -/

/-- C3: the claim says `RemoveLast` removes the last message unless the
removal would take the sole remaining system message or the history is
empty.  Counterexample: a history holding a single *user* message is
non-empty and its sole message is not the system message, yet
`RemoveLast` removes nothing and returns `false` (the source guards on
`len(h.messages) <= 1`, regardless of the role of the sole message). -/
theorem C3_counterexample :
    RemoveLast [⟨roleUser, "hi"⟩] = ([⟨roleUser, "hi"⟩], false) ∧
    ([⟨roleUser, "hi"⟩] : List Message) ≠ [] ∧
    ¬(([⟨roleUser, "hi"⟩] : List Message).length = 1 ∧
        ([⟨roleUser, "hi"⟩] : List Message).head?.map Message.role =
          some roleSystem) := by
  refine ⟨by decide, by decide, ?_⟩
  intro h
  exact absurd h.2 (by decide)

/-- C3 (amended): `RemoveLast` removes the last message exactly when the
history holds at least two messages, returning whether a removal
occurred; a removal drops exactly the last message and a refusal leaves
the history unchanged.  In particular, on a history holding only a
system message it returns `false` leaving the count unchanged, and on
`[system, user]` it returns `true` and reduces the history to
`[system]`. -/
theorem C3_removeLast :
    (∀ msgs : List Message,
      ((RemoveLast msgs).2 = true ↔ 2 ≤ msgs.length) ∧
      ((RemoveLast msgs).2 = true → (RemoveLast msgs).1 = msgs.dropLast) ∧
      ((RemoveLast msgs).2 = false → (RemoveLast msgs).1 = msgs)) ∧
    (∀ sp : String,
      RemoveLast [⟨roleSystem, sp⟩] = ([⟨roleSystem, sp⟩], false)) ∧
    (∀ sp uc : String,
      RemoveLast [⟨roleSystem, sp⟩, ⟨roleUser, uc⟩] =
        ([⟨roleSystem, sp⟩], true)) := by
  refine ⟨fun msgs => ?_, fun sp => rfl, fun sp uc => rfl⟩
  unfold RemoveLast
  by_cases h : msgs.length ≤ 1
  · simp [h]; omega
  · simp [h]; omega

/-- C3 (amended) witness: the amended statement evaluated on the
two-message history `[system, user]`. -/
theorem C3_removeLast_witness :
    (RemoveLast [⟨roleSystem, "s"⟩, ⟨roleUser, "u"⟩]).2 = true ∧
    (RemoveLast [⟨roleSystem, "s"⟩, ⟨roleUser, "u"⟩]).1 =
      ([⟨roleSystem, "s"⟩, ⟨roleUser, "u"⟩] : List Message).dropLast := by
  have h := C3_removeLast
  have h1 := (h.1 [⟨roleSystem, "s"⟩, ⟨roleUser, "u"⟩]).1.mpr (by decide)
  exact ⟨h1, (h.1 [⟨roleSystem, "s"⟩, ⟨roleUser, "u"⟩]).2.1 h1⟩

/-- C5: `UpdateLastAssistant` replaces the content of the last message
and reports success exactly when that message's role is assistant; on a
non-assistant last message or an empty history it reports failure and
leaves the history unchanged. -/
theorem C5_updateLastAssistant (msgs : List Message) (text : String) :
    (∀ m, msgs.getLast? = some m → m.role = roleAssistant →
      UpdateLastAssistant msgs text =
        (msgs.dropLast ++ [⟨roleAssistant, text⟩], true)) ∧
    (∀ m, msgs.getLast? = some m → m.role ≠ roleAssistant →
      UpdateLastAssistant msgs text = (msgs, false)) ∧
    (msgs = [] → UpdateLastAssistant msgs text = (msgs, false)) := by
  refine ⟨fun m hm hrole => ?_, fun m hm hrole => ?_, fun hnil => ?_⟩
  · unfold UpdateLastAssistant
    rw [hm]
    simp only [hrole, if_pos rfl]
    exact congrArg (fun l => (msgs.dropLast ++ [l], true))
      (by cases m; simp_all)
  · unfold UpdateLastAssistant
    rw [hm]
    exact if_neg hrole
  · subst hnil; rfl

/-- C5 witness: on a history whose last message is a user message the
update fails and the history is returned unchanged. -/
theorem C5_updateLastAssistant_witness :
    UpdateLastAssistant [⟨roleUser, "Hello"⟩] "Hi" =
      ([⟨roleUser, "Hello"⟩], false) :=
  (C5_updateLastAssistant [⟨roleUser, "Hello"⟩] "Hi").2.1
    ⟨roleUser, "Hello"⟩ rfl (by decide)

/-- C1: the parser keeps no carry-over buffer, so split-invariance
fails.  The single wire line `data: {"choices":[{"delta":{"content":
"hi"}}]}\n` parsed in one call yields the fragment `hi`, but splitting
the same bytes after the third byte (`dat` + `a: ...`) yields no
fragment at all from either piece — whatever the JSON decoder does —
because neither piece contains a line with the `data: ` marker.  The
concatenated fragment texts therefore differ (`"hi"` vs `""`). -/
theorem C1_split_loses_partial_line :
    fullHi.take 3 ++ fullHi.drop 3 = fullHi ∧
    concatContent (parseStreamData decodeHi fullHi) = "hi" ∧
    (∀ decode, parseStreamData decode (fullHi.take 3) = [] ∧
      parseStreamData decode (fullHi.drop 3) = []) ∧
    concatContent
      (parseStreamData decodeHi (fullHi.take 3) ++
        parseStreamData decodeHi (fullHi.drop 3)) = "" := by
  refine ⟨by decide, by decide, fun decode => ⟨rfl, rfl⟩, by decide⟩

/-- C2: a clean end of file before any `[DONE]` sentinel.  The read loop
returns without emitting any terminal chunk (only the content parsed so
far), `ChatStream` closes the channel exactly once via its deferred
close, and the bridge goroutine — whose `for range` loop just ends on
channel closure — forwards no `Done` message to the consumer and never
closes the UI channel.  The consumer therefore never receives a
terminal `Done` event, contradicting the claimed implicit-`Completed`
behaviour. -/
theorem C2_eof_no_done_event :
    readStream decodeHi none [⟨fullHi, none⟩, ⟨[], some ReadErr.eof⟩] =
      [contentChunk "hi"] ∧
    (ChatStream decodeHi (StreamOutcome.response 200 []
        [⟨fullHi, none⟩, ⟨[], some ReadErr.eof⟩] none)).2 = 1 ∧
    forwardToUI (readStream decodeHi none
        [⟨fullHi, none⟩, ⟨[], some ReadErr.eof⟩]) =
      ([⟨"hi", false, none⟩], false) := by
  refine ⟨by decide, by decide, by decide⟩

/-- C4: on a non-success HTTP status, `ChatStream` sends exactly one
error chunk — the API error carrying the response body in its context —
and closes the channel once; no content chunk and no done chunk is
sent; the bridge forwards exactly one failed message; and replaying the
forwarded messages through the display model's handler flips only the
error status, leaving the conversation history exactly as it was (no
assistant message appended). -/
theorem C4_error_status (decode : List Char → Option ChatResponse)
    (status : Nat) (body : List Char) (reads : List ReadRes)
    (cancelAfter : Option Nat) (hist : List Message) (buf : String)
    (h : status ≠ 200) :
    (ChatStream decode (StreamOutcome.response status body reads
        cancelAfter)).1 =
      [errorChunk (handleErrorResponse status body)] ∧
    (ChatStream decode (StreamOutcome.response status body reads
        cancelAfter)).2 = 1 ∧
    ("body", CtxVal.strVal body) ∈ (handleErrorResponse status body).context ∧
    (∀ c ∈ (ChatStream decode (StreamOutcome.response status body reads
        cancelAfter)).1, c.content = "" ∧ c.done = false) ∧
    forwardToUI (ChatStream decode (StreamOutcome.response status body reads
        cancelAfter)).1 =
      ([⟨"", false, some (handleErrorResponse status body)⟩], true) ∧
    handleStreamMsgs ⟨hist, buf, false⟩
        (forwardToUI (ChatStream decode (StreamOutcome.response status body
          reads cancelAfter)).1).1 =
      ⟨hist, buf, true⟩ := by
  have hch : ChatStream decode (StreamOutcome.response status body reads
      cancelAfter) = ([errorChunk (handleErrorResponse status body)], 1) := by
    simp [ChatStream, h]
  rw [hch]
  refine ⟨rfl, rfl, ?_, ?_, rfl, rfl⟩
  · simp [handleErrorResponse, AppError.withContext]
  · intro c hc
    simp only [List.mem_singleton] at hc
    subst hc
    exact ⟨rfl, rfl⟩

/-- C4 witness: the spec's concrete scenario, status 401 with body
`{"error":"bad key"}`, starting from a history holding the user turn. -/
theorem C4_error_status_witness :
    (ChatStream decodeHi (StreamOutcome.response 401
        "\x7b\"error\":\"bad key\"\x7d".toList [] none)).1 =
      [errorChunk (handleErrorResponse 401
        "\x7b\"error\":\"bad key\"\x7d".toList)] ∧
    handleStreamMsgs ⟨[⟨roleUser, "hi"⟩], "", false⟩
        (forwardToUI (ChatStream decodeHi (StreamOutcome.response 401
          "\x7b\"error\":\"bad key\"\x7d".toList [] none)).1).1 =
      ⟨[⟨roleUser, "hi"⟩], "", true⟩ := by
  have h := C4_error_status decodeHi 401 "\x7b\"error\":\"bad key\"\x7d".toList
    [] none [⟨roleUser, "hi"⟩] "" (by decide)
  exact ⟨h.1, h.2.2.2.2.2⟩

/-! ## Frame-parser lemmas -/

/-- Splitting on newline distributes over the first newline: a
newline-free fragment followed by a newline becomes the first line and
the remainder is split recursively. -/
theorem splitOnNl_append (s t : List Char) (h : '\n' ∉ s) :
    splitOnNl (s ++ '\n' :: t) = s :: splitOnNl t := by
  induction s with
  | nil => simp [splitOnNl]
  | cons c s ih =>
    simp only [List.mem_cons, not_or] at h
    have hc : ¬(c = '\n') := fun hcn => h.1 hcn.symm
    have ihh := ih h.2
    simp only [List.cons_append, splitOnNl, if_neg hc]
    simp only [List.append_eq]
    rw [ihh]

/-- A list is a prefix of itself followed by anything (in the Boolean
`isPrefixOf` form used by the parser). -/
theorem isPrefixOf_self_append (l t : List Char) :
    l.isPrefixOf (l ++ t) = true := by
  induction l with
  | nil => simp [List.isPrefixOf]
  | cons c cs ih => simp [List.isPrefixOf, ih]

/-- Processing a well-formed `data: ` line: the trimmed payload is
handed to the decoder, and the resulting chunks (if any) are followed by
the chunks of the remaining lines. -/
theorem parseLines_data_line (decode : List Char → Option ChatResponse)
    (payload : List Char) (ls : List (List Char))
    (htrim : trimSpaceBytes ("data: ".toList ++ payload) =
      "data: ".toList ++ payload)
    (hnd : payload ≠ "[DONE]".toList) :
    parseLines decode (("data: ".toList ++ payload) :: ls) =
      match decode payload with
      | none => parseLines decode ls
      | some resp => envelopeChunks resp ++ parseLines decode ls := by
  have hlen : ¬(("data: ".toList ++ payload).length = 0) := by
    simp
  have hcomment : ((":".toList).isPrefixOf ("data: ".toList ++ payload)) =
      false := rfl
  have hdata : (("data: ".toList).isPrefixOf ("data: ".toList ++ payload)) =
      true := isPrefixOf_self_append _ _
  have hdrop : ("data: ".toList ++ payload).drop (("data: ".toList).length) =
      payload := List.drop_left _ _
  simp only [parseLines, htrim, hlen, hcomment, hdata, hdrop,
    if_neg hnd, Bool.false_eq_true, Bool.true_eq_false, if_false, if_true,
    ite_false, ite_true, not_false_eq_true, not_true_eq_false]

/-- The per-line loop only ever looks at later lines through the
recursive call, so replacing the tail of the line list by one producing
the same chunks leaves the overall result unchanged. -/
theorem parseLines_congr_tail (decode : List Char → Option ChatResponse)
    (ls2 ls2' : List (List Char))
    (h : parseLines decode ls2 = parseLines decode ls2') :
    ∀ ls1, parseLines decode (ls1 ++ ls2) = parseLines decode (ls1 ++ ls2') := by
  intro ls1
  induction ls1 with
  | nil => simpa using h
  | cons l ls ih =>
    simp only [List.cons_append, parseLines]
    by_cases h0 : (trimSpaceBytes l).length = 0
    · simp only [if_pos h0]; exact ih
    · simp only [if_neg h0]
      by_cases h1 : ((":".toList).isPrefixOf (trimSpaceBytes l)) = true
      · simp only [h1, if_true]; exact ih
      · simp only [h1, Bool.false_eq_true, if_false,
          eq_self_iff_true, not_false_eq_true]
        by_cases h2 : (("data: ".toList).isPrefixOf (trimSpaceBytes l)) = true
        · simp only [h2, not_true_eq_false, if_false, ite_not]
          by_cases h3 : (trimSpaceBytes l).drop (("data: ".toList).length) =
              "[DONE]".toList
          · simp only [if_pos h3]
          · simp only [if_neg h3]
            cases hdec : decode ((trimSpaceBytes l).drop
                (("data: ".toList).length)) with
            | none => exact ih
            | some resp => exact congrArg (envelopeChunks resp ++ ·) ih
        · simp only [h2, Bool.false_eq_true, if_false, not_false_eq_true,
            if_true]
          exact ih

/-- C7: a buffer that starts with the `data: [DONE]` sentinel line
yields exactly one completed chunk, whatever bytes follow in the same
buffer; more generally, once the per-line loop reaches a sentinel line
it returns at once, so any lines after the sentinel are never
inspected. -/
theorem C7_done_sentinel_stops :
    (∀ (decode : List Char → Option ChatResponse) (post : List Char),
      parseStreamData decode ("data: [DONE]".toList ++ '\n' :: post) =
        [doneChunk]) ∧
    (∀ (decode : List Char → Option ChatResponse) (ls1 ls2 : List (List Char)),
      parseLines decode (ls1 ++ "data: [DONE]".toList :: ls2) =
        parseLines decode (ls1 ++ ["data: [DONE]".toList])) := by
  constructor
  · intro decode post
    unfold parseStreamData
    rw [splitOnNl_append _ _ (by decide)]
    rfl
  · intro decode ls1 ls2
    exact parseLines_congr_tail decode ("data: [DONE]".toList :: ls2)
      ["data: [DONE]".toList] rfl ls1

/-- C6: a single `data: ` line whose envelope carries non-empty delta
content yields the content fragment first, followed by a completed
chunk exactly when the finish reason is neither empty nor the literal
string `"null"`; in particular a `"null"` finish reason yields no
completion chunk. -/
theorem C6_fragment_then_completion
    (decode : List Char → Option ChatResponse) (payload : List Char)
    (resp : ChatResponse) (c0 : Choice) (rest : List Choice)
    (hnl : '\n' ∉ payload)
    (htrim : trimSpaceBytes ("data: ".toList ++ payload) =
      "data: ".toList ++ payload)
    (hnd : payload ≠ "[DONE]".toList)
    (hdec : decode payload = some resp)
    (hch : resp.choices = c0 :: rest)
    (hcont : c0.delta.content ≠ "") :
    parseStreamData decode ("data: ".toList ++ payload ++ ['\n']) =
      contentChunk c0.delta.content ::
        (if c0.finishReason ≠ "" ∧ c0.finishReason ≠ "null" then [doneChunk]
          else []) := by
  have hnl2 : '\n' ∉ "data: ".toList ++ payload := by
    intro hm
    rcases List.mem_append.mp hm with h1 | h2
    · exact absurd h1 (by decide)
    · exact hnl h2
  have hsplit : splitOnNl ("data: ".toList ++ payload ++ ['\n']) =
      ("data: ".toList ++ payload) :: splitOnNl [] := by
    have h := splitOnNl_append ("data: ".toList ++ payload) [] hnl2
    rw [← h]
  unfold parseStreamData
  rw [hsplit, parseLines_data_line decode payload _ htrim hnd, hdec]
  show envelopeChunks resp ++ parseLines decode (splitOnNl []) = _
  unfold envelopeChunks
  rw [hch]
  have hz : parseLines decode (splitOnNl []) = [] := rfl
  simp [hcont, hz]

/-- C8: a `data: ` line whose payload fails to decode is silently
dropped — no chunk, no error — and a following well-formed line in the
same buffer still yields its content chunk. -/
theorem C8_malformed_dropped
    (decode : List Char → Option ChatResponse) (bad good : List Char)
    (resp : ChatResponse) (c0 : Choice) (rest : List Choice)
    (hnlb : '\n' ∉ bad)
    (htrimb : trimSpaceBytes ("data: ".toList ++ bad) =
      "data: ".toList ++ bad)
    (hndb : bad ≠ "[DONE]".toList)
    (hdecb : decode bad = none)
    (hnlg : '\n' ∉ good)
    (htrimg : trimSpaceBytes ("data: ".toList ++ good) =
      "data: ".toList ++ good)
    (hndg : good ≠ "[DONE]".toList)
    (hdecg : decode good = some resp)
    (hch : resp.choices = c0 :: rest)
    (hcont : c0.delta.content ≠ "")
    (hfin : c0.finishReason = "" ∨ c0.finishReason = "null") :
    parseStreamData decode
        ("data: ".toList ++ bad ++
          '\n' :: ("data: ".toList ++ good ++ ['\n'])) =
      [contentChunk c0.delta.content] := by
  have hnlb2 : '\n' ∉ "data: ".toList ++ bad := by
    intro hm
    rcases List.mem_append.mp hm with h1 | h2
    · exact absurd h1 (by decide)
    · exact hnlb h2
  have hnlg2 : '\n' ∉ "data: ".toList ++ good := by
    intro hm
    rcases List.mem_append.mp hm with h1 | h2
    · exact absurd h1 (by decide)
    · exact hnlg h2
  have hsplit1 : splitOnNl ("data: ".toList ++ bad ++
      '\n' :: ("data: ".toList ++ good ++ ['\n'])) =
      ("data: ".toList ++ bad) ::
        splitOnNl ("data: ".toList ++ good ++ ['\n']) := by
    have h := splitOnNl_append ("data: ".toList ++ bad)
      ("data: ".toList ++ good ++ ['\n']) hnlb2
    rw [← h]
  have hsplit2 : splitOnNl ("data: ".toList ++ good ++ ['\n']) =
      ("data: ".toList ++ good) :: splitOnNl [] := by
    have h := splitOnNl_append ("data: ".toList ++ good) [] hnlg2
    rw [← h]
  unfold parseStreamData
  rw [hsplit1, hsplit2, parseLines_data_line decode bad _ htrimb hndb, hdecb,
    parseLines_data_line decode good _ htrimg hndg, hdecg]
  show envelopeChunks resp ++ parseLines decode (splitOnNl []) = _
  unfold envelopeChunks
  rw [hch]
  have hz : parseLines decode (splitOnNl []) = [] := rfl
  have hfin2 : ¬(c0.finishReason ≠ "" ∧ c0.finishReason ≠ "null") := by
    rcases hfin with h | h <;> simp [h]
  simp [hcont, hfin2, hz]

end LlmClient

namespace LlmClient

/-- C6 witness: the theorem applied to the table decoder, once with
finish reason `stop` (fragment then completion) and once with the
literal finish reason `null` (fragment only, no completion). -/
theorem C6_fragment_then_completion_witness :
    parseStreamData decodeT "data: P1\n".toList =
      [contentChunk "hi", doneChunk] ∧
    parseStreamData decodeT "data: P2\n".toList = [contentChunk "hi"] := by
  constructor
  · have h := C6_fragment_then_completion decodeT "P1".toList respFin
      ⟨0, ⟨"", "hi"⟩, ⟨"", ""⟩, "stop"⟩ [] (by decide) (by decide) (by decide)
      rfl rfl (by decide)
    exact h.trans (by decide)
  · have h := C6_fragment_then_completion decodeT "P2".toList respNull
      ⟨0, ⟨"", "hi"⟩, ⟨"", ""⟩, "null"⟩ [] (by decide) (by decide) (by decide)
      rfl rfl (by decide)
    exact h.trans (by decide)

/-- C8 witness: the malformed payload `BAD` is dropped and the
well-formed line after it still yields its fragment. -/
theorem C8_malformed_dropped_witness :
    parseStreamData decodeT "data: BAD\ndata: P2\n".toList =
      [contentChunk "hi"] := by
  have h := C8_malformed_dropped decodeT "BAD".toList "P2".toList respNull
    ⟨0, ⟨"", "hi"⟩, ⟨"", ""⟩, "null"⟩ [] (by decide) (by decide) (by decide)
    rfl (by decide) (by decide) (by decide) rfl rfl (by decide) (Or.inr rfl)
  exact h

/-! ## Read-loop lemmas -/

/-- When the chunk-forwarding loop runs to completion without an early
return, every chunk it sent was non-terminal. -/
theorem forwardChunks_sent_nonterminal (cs : List StreamChunk)
    (h : (forwardChunks cs).2 = false) :
    ∀ c ∈ (forwardChunks cs).1, isTerminal c = false := by
  induction cs with
  | nil => intro c hc; simp [forwardChunks] at hc
  | cons c cs ih =>
    intro d hd
    by_cases h1 : c.done = true
    · simp [forwardChunks, if_pos h1] at h
    · by_cases h2 : c.error.isSome = true
      · simp [forwardChunks, if_neg h1, if_pos h2] at h
      · by_cases h3 : c.content = ""
        · simp only [forwardChunks, if_neg h1, if_neg h2,
            if_neg (fun hne : c.content ≠ "" => hne h3)] at h hd
          exact ih h d hd
        · simp only [forwardChunks, if_neg h1, if_neg h2, if_pos h3] at h hd
          simp only [List.mem_cons] at hd
          rcases hd with rfl | hd
          · simp [isTerminal, eq_false_of_ne_true h1, eq_false_of_ne_true h2]
          · exact ih h d hd

/-- The chunks sent by the forwarding loop never continue past a
terminal chunk. -/
theorem forwardChunks_tol (cs : List StreamChunk) :
    terminalOnlyLast (forwardChunks cs).1 = true := by
  induction cs with
  | nil => rfl
  | cons c cs ih =>
    by_cases h1 : c.done = true
    · simp [forwardChunks, if_pos h1, terminalOnlyLast]
    · by_cases h2 : c.error.isSome = true
      · simp [forwardChunks, if_neg h1, if_pos h2, terminalOnlyLast]
      · by_cases h3 : c.content = ""
        · simpa only [forwardChunks, if_neg h1, if_neg h2,
            if_neg (fun hne : c.content ≠ "" => hne h3)] using ih
        · simp only [forwardChunks, if_neg h1, if_neg h2, if_pos h3]
          by_cases h4 : (forwardChunks cs).1 = []
          · simp [terminalOnlyLast, h4]
          · simp [terminalOnlyLast, h4, isTerminal,
              eq_false_of_ne_true h1, eq_false_of_ne_true h2, ih]

/-- Appending a terminal-only-last tail to all-non-terminal chunks keeps
the property. -/
theorem terminalOnlyLast_append (xs ys : List StreamChunk)
    (hx : ∀ c ∈ xs, isTerminal c = false)
    (hy : terminalOnlyLast ys = true) :
    terminalOnlyLast (xs ++ ys) = true := by
  induction xs with
  | nil => simpa using hy
  | cons x xs ih =>
    have hx0 := hx x (List.mem_cons_self x xs)
    have hxs : ∀ c ∈ xs, isTerminal c = false :=
      fun c hc => hx c (List.mem_cons_of_mem _ hc)
    by_cases h : xs ++ ys = []
    · simp [terminalOnlyLast, List.cons_append, h]
    · simp [terminalOnlyLast, List.cons_append, h, hx0, ih hxs]

/-- A list whose every chunk before the last is non-terminal holds at
most one terminal chunk. -/
theorem countTerminals_le_one (cs : List StreamChunk)
    (h : terminalOnlyLast cs = true) : countTerminals cs ≤ 1 := by
  induction cs with
  | nil => simp [countTerminals]
  | cons c cs ih =>
    by_cases hcs : cs = []
    · subst hcs
      simp only [countTerminals, List.filter]
      cases isTerminal c <;> simp
    · have h' : (!isTerminal c && terminalOnlyLast cs) = true := by
        simpa [terminalOnlyLast, hcs] using h
      have h1f : isTerminal c = false := by
        by_cases hb : isTerminal c = true <;> simp_all
      have h2 : terminalOnlyLast cs = true := by
        by_cases hb : terminalOnlyLast cs = true <;> simp_all
      simpa [countTerminals, List.filter, h1f] using ih h2

/-- The read loop never sends anything after a terminal chunk, from any
iteration on. -/
theorem readStreamAux_tol (decode : List Char → Option ChatResponse)
    (cancelAfter : Option Nat) :
    ∀ (i : Nat) (reads : List ReadRes),
      terminalOnlyLast (readStreamAux decode cancelAfter i reads) = true := by
  intro i reads
  induction reads generalizing i with
  | nil => rfl
  | cons r rs ih =>
    simp only [readStreamAux]
    by_cases hctx : ctxDoneAt cancelAfter i = true
    · simp [if_pos hctx, terminalOnlyLast]
    · rw [if_neg hctx]
      have htol : terminalOnlyLast
          (if r.data ≠ [] then forwardChunks (parseStreamData decode r.data)
            else (([] : List StreamChunk), false)).1 = true := by
        by_cases hd : r.data = []
        · rw [if_neg (fun hne : r.data ≠ [] => hne hd)]; rfl
        · rw [if_pos hd]
          exact forwardChunks_tol (parseStreamData decode r.data)
      have hmem : (if r.data ≠ [] then
            forwardChunks (parseStreamData decode r.data)
            else (([] : List StreamChunk), false)).2 = false →
          ∀ c ∈ (if r.data ≠ [] then
            forwardChunks (parseStreamData decode r.data)
            else (([] : List StreamChunk), false)).1, isTerminal c = false := by
        by_cases hd : r.data = []
        · rw [if_neg (fun hne : r.data ≠ [] => hne hd)]
          intro _ c hc
          simp at hc
        · rw [if_pos hd]
          exact forwardChunks_sent_nonterminal _
      by_cases h2 : (if r.data ≠ [] then
          forwardChunks (parseStreamData decode r.data)
          else (([] : List StreamChunk), false)).2 = true
      · rw [if_pos h2]
        exact htol
      · have h2f : (if r.data ≠ [] then
            forwardChunks (parseStreamData decode r.data)
            else (([] : List StreamChunk), false)).2 = false := by
          simpa using h2
        rw [if_neg h2]
        cases herr : r.err with
        | none => exact terminalOnlyLast_append _ _ (hmem h2f) (ih (i + 1))
        | some e =>
          cases e with
          | eof => exact htol
          | other m => exact terminalOnlyLast_append _ _ (hmem h2f) rfl

/-- C9: chunks are delivered in emission order (the channel is FIFO and
the model records the emission sequence itself), and the read loop never
sends anything after forwarding a `Done` or error chunk — every chunk
before the last one is non-terminal, for every decoder, cancellation
point and read sequence, even when a parser batch contains content
chunks after a completion chunk. -/
theorem C9_no_event_after_terminal (decode : List Char → Option ChatResponse)
    (cancelAfter : Option Nat) (reads : List ReadRes) :
    terminalOnlyLast (readStream decode cancelAfter reads) = true :=
  readStreamAux_tol decode cancelAfter 0 reads

/-- C10: on every path of `ChatStream` — marshal failure, request
construction failure, transport failure, non-success status, and the
whole streaming loop (read errors, EOF, sentinel, cancellation) — the
channel is closed exactly once and at most one terminal chunk is ever
sent. -/
theorem C10_channel_discipline (decode : List Char → Option ChatResponse)
    (outcome : StreamOutcome) :
    (ChatStream decode outcome).2 = 1 ∧
    countTerminals (ChatStream decode outcome).1 ≤ 1 := by
  cases outcome with
  | marshalFail =>
    refine ⟨rfl, ?_⟩
    show countTerminals
      [errorChunk (NewInternalError "MARSHAL_ERROR"
        "failed to marshal request")] ≤ 1
    decide
  | requestFail =>
    refine ⟨rfl, ?_⟩
    show countTerminals
      [errorChunk (NewInternalError "REQUEST_ERROR"
        "failed to create request")] ≤ 1
    decide
  | transportFail =>
    refine ⟨rfl, ?_⟩
    show countTerminals
      [errorChunk (NewNetworkError "REQUEST_FAILED" "request failed")] ≤ 1
    decide
  | response status body reads cancelAfter =>
    by_cases h : status ≠ 200
    · refine ⟨?_, ?_⟩
      · simp only [ChatStream, if_pos h]
      · simp only [ChatStream, if_pos h]
        simp [countTerminals, List.filter, isTerminal, errorChunk]
    · refine ⟨?_, ?_⟩
      · simp only [ChatStream, if_neg h]
      · simp only [ChatStream, if_neg h]
        exact countTerminals_le_one _
          (readStreamAux_tol decode cancelAfter 0 reads)

end LlmClient
